import Mathlib

/-!
Verification of the Sigil script engine (src/core/sigil.py) against its
natural-language specification.  The Python source is shallowly embedded:
pure text transforms become Lean functions on `String`/`List Char`,
the global interpreter state becomes explicit state records, Python
exceptions become an `Outcome` sum, and the (possibly non-terminating)
interpreter loop is given an explicit fuel parameter, where a `none`
result means the computation would need more fuel (i.e. does not
terminate within the given bound).

Python `dict` / `set` values are modelled as association lists / lists of
keys with lookup-first semantics; Python string operations are modelled
character-exactly on the ASCII fragment exercised by the scripts
(the Unicode extensions of `str.isspace` etc. are not modelled).
-/

namespace Sigil

/-- Embedding of Python `str.isspace` for the ASCII whitespace characters. -/
def pyIsSpace (c : Char) : Bool :=
  c = ' ' || c = '\t' || c = '\n' || c = '\x0d' || c = '\x0b' || c = '\x0c'

/-- Association-list lookup: embedding of Python `dict.get(k)` /
`k in d` for the state dictionaries. -/
def lookupA {α : Type} (l : List (String × α)) (k : String) : Option α :=
  match l with
  | [] => none
  | (k', v) :: rest => if k' = k then some v else lookupA rest k

/-- Association-list update: embedding of Python `d[k] = v`
(replace the existing binding, else append). -/
def setA {α : Type} (l : List (String × α)) (k : String) (v : α) :
    List (String × α) :=
  match l with
  | [] => [(k, v)]
  | (k', v') :: rest =>
      if k' = k then (k, v) :: rest else (k', v') :: setA rest k v

/-- Association-list removal: embedding of Python `del d[k]`. -/
def eraseA {α : Type} (l : List (String × α)) (k : String) :
    List (String × α) :=
  l.filter (fun p => p.1 ≠ k)

theorem lookupA_setA_self {α : Type} (l : List (String × α)) (k : String)
    (v : α) : lookupA (setA l k v) k = some v := by
  induction l with
  | nil => simp [setA, lookupA]
  | cons p rest ih =>
      by_cases h : p.1 = k
      · simp [setA, h, lookupA]
      · simp [setA, h, lookupA, ih]

theorem lookupA_eraseA_self {α : Type} (l : List (String × α)) (k : String) :
    lookupA (eraseA l k) k = none := by
  induction l with
  | nil => simp [eraseA, lookupA]
  | cons p rest ih =>
      by_cases h : p.1 = k
      · simpa [eraseA, h, lookupA] using ih
      · simpa [eraseA, h, lookupA] using ih

/-- Embedding of Python `" ".join(xs)`. -/
def joinSpace : List String → String
  | [] => ""
  | [x] => x
  | x :: xs => x ++ " " ++ joinSpace xs

/-- `TextProcessor.tokenize` inner loop (state: `in_quotes`, `current`). -/
def tokenizeCore : List Char → Bool → List Char → List (List Char)
  | [], _, cur => if cur.isEmpty then [] else [cur]
  | c :: rest, inQ, cur =>
      if c = '"' then tokenizeCore rest (!inQ) (cur ++ [c])
      else if !inQ && pyIsSpace c then
        if cur.isEmpty then tokenizeCore rest inQ []
        else cur :: tokenizeCore rest inQ []
      else tokenizeCore rest inQ (cur ++ [c])

/-- `TextProcessor.tokenize`: split a line into tokens, respecting
double quotes. -/
def tokenize (line : String) : List String :=
  (tokenizeCore line.data false []).map (fun l => ⟨l⟩)

/-- Embedding of Python `b.startswith(a)` on character lists. -/
def pyStartsWithL (s pre : List Char) : Bool := pre.isPrefixOf s

/-- Embedding of Python `s.startswith(p)`. -/
def pyStartsWith (s p : String) : Bool := pyStartsWithL s.data p.data

/-- Embedding of Python `str.strip()` (both ends, whitespace). -/
def stripChars (l : List Char) : List Char :=
  ((l.dropWhile pyIsSpace).reverse.dropWhile pyIsSpace).reverse

/-- Embedding of Python `s.strip()`. -/
def pyStrip (s : String) : String := ⟨stripChars s.data⟩

/-- Embedding of Python `s.lstrip()`. -/
def pyLstrip (s : String) : String := ⟨s.data.dropWhile pyIsSpace⟩

/-- Embedding of Python `s.rstrip()`. -/
def pyRstrip (s : String) : String :=
  ⟨(s.data.reverse.dropWhile pyIsSpace).reverse⟩

/-- Embedding of Python `str.split()` (split on whitespace runs,
no empty fields). -/
def splitWsCore : List Char → List Char → List (List Char)
  | [], cur => if cur.isEmpty then [] else [cur]
  | c :: rest, cur =>
      if pyIsSpace c then
        if cur.isEmpty then splitWsCore rest []
        else cur :: splitWsCore rest []
      else splitWsCore rest (cur ++ [c])

/-- Embedding of Python `s.split()`. -/
def pySplitWs (s : String) : List String :=
  (splitWsCore s.data []).map (fun l => ⟨l⟩)

/-- Embedding of Python `s[n:]` (character slicing from index `n`). -/
def pyDrop (s : String) (n : Nat) : String := ⟨s.data.drop n⟩

/-- Embedding of Python `s[:n]`. -/
def pyTake (s : String) (n : Nat) : String := ⟨s.data.take n⟩

/-- Embedding of Python `hay.find(needle)`: index of the first
occurrence of `needle`, or `none` (Python returns `-1`). -/
def findSub (hay needle : List Char) : Option Nat :=
  match hay with
  | [] => if needle.isEmpty then some 0 else none
  | _ :: rest =>
      if needle.isPrefixOf hay then some 0
      else (findSub rest needle).map (· + 1)

/-- The `while True` loop of `TextProcessor.strip_comments` that excises
complete block comments from a single line.  Each excision removes both
comment delimiters, so the line shrinks by at least four characters per
iteration; the fuel `length l + 1` passed by `stripComments` is therefore
never exhausted. -/
def blockLoop : Nat → List Char → List Char × Bool
  | 0, l => (l, false)
  | f + 1, l =>
      match findSub l ['/', '*'] with
      | none => (l, false)
      | some s =>
          match findSub (l.drop (s + 2)) ['*', '/'] with
          | none => (l.take s, true)
          | some e0 => blockLoop f (l.take s ++ l.drop (s + 2 + e0 + 2))

/-- The character-by-character scan of `TextProcessor.strip_comments`
that truncates the line at the first unquoted `&`, `#` or `//`. -/
def lineCommentScan : List Char → Bool → List Char
  | [], _ => []
  | c :: rest, inQ =>
      if c = '"' then c :: lineCommentScan rest (!inQ)
      else if !inQ && (c = '&' || c = '#') then []
      else if !inQ && c = '/' && rest.head? = some '/' then []
      else c :: lineCommentScan rest inQ

/-- `TextProcessor.strip_comments`: strip comments from a line,
threading the block-comment state. -/
def stripComments (line : String) (inBlockComment : Bool) : String × Bool :=
  let l := line.data
  -- Handle existing block comment
  match (if inBlockComment then
          match findSub l ['*', '/'] with
          | none => none
          | some i => some (l.drop (i + 2))
        else some l) with
  | none => ("", true)
  | some l =>
      -- Handle new block comments
      let (l, inB) := blockLoop (l.length + 1) l
      -- Check for line comment markers
      if pyStartsWithL (l.dropWhile pyIsSpace) ['&'] then ("", inB)
      else
        -- Inline comment scan, then rstrip
        (pyRstrip ⟨lineCommentScan l false⟩, inB)

/-- Embedding of Python `s.rstrip("\n")` in `Interpreter.run_lines`. -/
def rstripNl (s : String) : String :=
  ⟨(s.data.reverse.dropWhile (· = '\n')).reverse⟩

/-- The comment-stripping pass over the whole line buffer at the top of
`Interpreter.run_lines` (threads `in_block_comment` across lines). -/
def cleanLines : List String → Bool → List String
  | [], _ => []
  | x :: xs, inB =>
      let (s, inB') := stripComments (rstripNl x) inB
      s :: cleanLines xs inB'

/-- First character of a Python identifier (`[A-Za-z_]`). -/
def identStart (c : Char) : Bool := c.isAlpha || c = '_'

/-- Subsequent character of a Python identifier (`[A-Za-z0-9_]`). -/
def identChar (c : Char) : Bool := c.isAlpha || c.isDigit || c = '_'

/-- Embedding of `Interpreter.LABEL_RE.match`: a line starting with
`identifier:` yields the identifier. -/
def labelName? (s : String) : Option String :=
  match s.data with
  | [] => none
  | c :: rest =>
      if identStart c then
        match rest.dropWhile identChar with
        | ':' :: _ => some ⟨c :: rest.takeWhile identChar⟩
        | _ => none
      else none

/-- `Interpreter._build_label_map`: scan the cleaned lines for labels;
a label maps to the index of the following line, duplicates last-wins. -/
def buildLabelMap (lines : List String) : List (String × Nat) :=
  lines.enum.foldl
    (fun labels (p : Nat × String) =>
      match labelName? (pyStrip p.2) with
      | some name => setA labels name (p.1 + 1)
      | none => labels)
    []

/-- A value of the Python variable store (`State.variables` holds
strings, ints and floats).  A float is kept opaquely as the literal text
it was parsed from; no theorem below depends on float semantics. -/
inductive PyVal : Type
  | vint (n : Int)
  | vstr (s : String)
  | vfloat (raw : String)
deriving DecidableEq, Repr

/-- Embedding of Python `str(value)` for stored variable values. -/
def pyStr : PyVal → String
  | .vint n => toString n
  | .vstr s => s
  | .vfloat raw => raw

/-- The variable store (`State.variables`). -/
abbrev Vars : Type := List (String × PyVal)

/-- The process environment (`os.environ`), read-only here. -/
abbrev Env : Type := List (String × String)

/-- Embedding of
`str(State.variables.get(name, os.environ.get(name, "")))`:
resolution tries the variable store first, then the environment,
else the empty string. -/
def resolveVar (vars : Vars) (env : Env) (name : String) : String :=
  match lookupA vars name with
  | some v => pyStr v
  | none =>
      match lookupA env name with
      | some s => s
      | none => ""

/-- Take a leading Python identifier from a character list:
embedding of `TextProcessor._varname_re.match`. -/
def identTake (l : List Char) : Option (List Char × List Char) :=
  match l with
  | [] => none
  | c :: rest =>
      if identStart c then
        some (c :: rest.takeWhile identChar, rest.dropWhile identChar)
      else none

/-- The character loop of `TextProcessor.expand_vars_in_string`.
Fuel decreases at every step and at least one character is consumed per
step, so the fuel `length l + 1` passed by the wrapper is never
exhausted (the fuel-0 branch is unreachable). -/
def expandVarsCore (vars : Vars) (env : Env) : Nat → List Char → List Char
  | 0, l => l
  | _ + 1, [] => []
  | f + 1, c :: rest =>
      if c = '\\' then
        match rest with
        | [] => ['\\']
        | nxt :: rest' =>
            if nxt = '$' || nxt = '\x7b' || nxt = '\x7d' || nxt = '"' ||
                nxt = '\\' then
              nxt :: expandVarsCore vars env f rest'
            else
              '\\' :: expandVarsCore vars env f rest
      else if c = '$' then
        if rest.head? = some '\x7b' then
          -- ${var} form: consume up to the first '}' after "${"
          match findSub rest.tail ['\x7d'] with
          | some e =>
              (resolveVar vars env ⟨rest.tail.take e⟩).data ++
                expandVarsCore vars env f (rest.tail.drop (e + 1))
          | none => '$' :: expandVarsCore vars env f rest
        else
          -- $var form
          match identTake rest with
          | some (name, after) =>
              (resolveVar vars env ⟨name⟩).data ++
                expandVarsCore vars env f after
          | none => '$' :: expandVarsCore vars env f rest
      else c :: expandVarsCore vars env f rest

/-- `TextProcessor.expand_vars_in_string`: expand `$var` and
`${var}` forms, with the restricted backslash escaping. -/
def expandVarsInString (vars : Vars) (env : Env) (text : String) : String :=
  ⟨expandVarsCore vars env (text.data.length + 1) text.data⟩

/-- Embedding of Python `s.replace('"', '\\"')` used when re-emitting a
double-quoted token. -/
def escQuotes : List Char → List Char
  | [] => []
  | c :: rest =>
      if c = '"' then '\\' :: '"' :: escQuotes rest else c :: escQuotes rest

/-- The per-token expansion of the non-alias branch of
`TextProcessor.expand_aliases_and_vars` (lines 638-663). -/
def expandToken (vars : Vars) (env : Env) (token : String) : String :=
  let td := token.data
  -- Single-quote shorthand: 'varname' -> value (falls back to the
  -- literal inner text when neither store nor environment has it)
  if td.length ≥ 2 && td.head? = some '\'' && td.getLast? = some '\'' then
    let inner : String := ⟨(td.drop 1).dropLast⟩
    match lookupA vars inner with
    | some v => pyStr v
    | none =>
        match lookupA env inner with
        | some s => s
        | none => inner
  -- Double-quoted string: expand vars inside, keep quotes, escape quotes
  else if td.length ≥ 2 && td.head? = some '"' && td.getLast? = some '"' then
    let inner : String := ⟨(td.drop 1).dropLast⟩
    ⟨'"' :: escQuotes (expandVarsInString vars env inner).data ++ ['"']⟩
  -- Token with $ in it
  else if td.contains '$' then
    expandVarsInString vars env token
  -- Direct variable reference
  else
    match lookupA vars token with
    | some v => pyStr v
    | none => token

/-- Alias tables (`State.aliases`). -/
abbrev Aliases : Type := List (String × String)

/-- `Config.ALIAS_RECURSION_LIMIT`. -/
def ALIAS_RECURSION_LIMIT : Nat := 20

/-- `Config.UNDO_LIMIT`. -/
def UNDO_LIMIT : Nat := 200

/-- The bounded `for _ in range(Config.ALIAS_RECURSION_LIMIT)` loop of
`TextProcessor.expand_aliases_and_vars` that rewrites the leading alias. -/
def aliasLoop (aliases : Aliases) : Nat → String → String
  | 0, newLine => newLine
  | n + 1, newLine =>
      let newTokens := tokenize newLine
      match newTokens with
      | [] => newLine
      | first :: rest =>
          match lookupA aliases first with
          | some body =>
              let restStr := if rest.isEmpty then "" else " " ++ joinSpace rest
              aliasLoop aliases n (body ++ restStr)
          | none => newLine

/-- `TextProcessor.expand_aliases_and_vars`.  The Python function calls
itself unconditionally after the bounded alias loop; that recursion is
given explicit fuel, and a `none` result means the call would recurse
beyond any bound (in CPython it dies with `RecursionError`). -/
def expandAliasesAndVars (aliases : Aliases) (vars : Vars) (env : Env) :
    Nat → String → Option String
  | fuel, line =>
      match tokenize line with
      | [] => some line
      | first :: rest =>
          match lookupA aliases first with
          | some body =>
              let newLine :=
                if rest.isEmpty then body else body ++ " " ++ joinSpace rest
              let newLine := aliasLoop aliases ALIAS_RECURSION_LIMIT newLine
              match fuel with
              | 0 => none
              | f + 1 => expandAliasesAndVars aliases vars env f newLine
          | none =>
              some (joinSpace ((first :: rest).map (expandToken vars env)))

/-! ## Transactional undo/redo journal and the `mk` command

The filesystem is modelled as a flat association list from (already
resolved) path strings to entries; `shutil.rmtree` / `Path.unlink` both
become removal of the path, `Path.write_text` becomes insertion, and the
`parents=True` directory creation of intermediate directories is not
tracked.  `UndoManager.backup_contents` copies file bytes into a backup
directory; the backup is modelled by storing the backed-up content
directly in the action record's `backup` field.  Action records carry
the `op`/`path`/`existed`/`backup` fields used by the `mk_file` and
`mk_dir` arms; the `dlt`/`cpy`/`move` arms of `Commands.undo`/`redo`
carry differently-shaped records and are outside the claims, so they
fall to the unsupported-operation branch here. -/

/-- An undo-journal action record (a Python dict in the source). -/
structure Action where
  op : String
  path : String
  existed : Bool
  backup : Option String
deriving DecidableEq, Repr

/-- A filesystem entry at a path. -/
inductive Entry : Type
  | file (content : String)
  | dir
deriving DecidableEq, Repr

/-- The stack manipulation of `UndoManager.push`: append to the undo
stack, evict the oldest entry once `Config.UNDO_LIMIT` is exceeded,
clear the redo stack. -/
def pushCore (undo _redo : List Action) (action : Action) :
    List Action × List Action :=
  let u := undo ++ [action]
  let u := if u.length > UNDO_LIMIT then u.tail else u
  (u, [])

/-- Embedding of Python `list.pop()` (remove and return the last
element). -/
def popLast? {α : Type} : List α → Option (α × List α)
  | [] => none
  | a :: rest =>
      match popLast? rest with
      | some (b, rest') => some (b, a :: rest')
      | none => some (a, [])

/-- The filesystem-facing interpreter state for the journal claims
(`State.undo_stack`, `State.redo_stack`, the filesystem, and the
`last` exit-code variable set by `set_last_exit`). -/
structure FsSt where
  fs : List (String × Entry)
  undoStack : List Action
  redoStack : List Action
  lastExit : Int
deriving DecidableEq, Repr

/-- `UndoManager.push` acting on the interpreter state. -/
def pushAction (st : FsSt) (action : Action) : FsSt :=
  let (u, r) := pushCore st.undoStack st.redoStack action
  { st with undoStack := u, redoStack := r }

/-- `UndoManager.backup_contents`: back up file contents (copy);
`none` when the path does not exist or is a directory. -/
def backupContents (st : FsSt) (path : String) : Option String :=
  match lookupA st.fs path with
  | some (.file c) => some c
  | _ => none

/-- `Commands.mk`: make a directory or file.  Paths are taken as already
resolved (`resolve_path` performs variable expansion and cwd resolution,
outside these claims).  The error path where `write_text` hits an
existing directory is not modelled (no claim touches it). -/
def mk (args : List String) (st : FsSt) : FsSt :=
  if args.length < 2 then { st with lastExit := 1 }
  else
    let targetType := args.headI
    let path := args.getD 1 ""
    if targetType = "dir" then
      let existed := (lookupA st.fs path).isSome
      let st :=
        if !existed then { st with fs := setA st.fs path .dir } else st
      let st := pushAction st
        { op := "mk_dir", path := path, existed := existed, backup := none }
      { st with lastExit := 0 }
    else if targetType = "file" then
      let content := if args.length > 2 then joinSpace (args.drop 2) else ""
      let existed := (lookupA st.fs path).isSome
      let backup := if existed then backupContents st path else none
      let st := { st with fs := setA st.fs path (.file content) }
      let st := pushAction st
        { op := "mk_file", path := path, existed := existed, backup := backup }
      { st with lastExit := 0 }
    else { st with lastExit := 1 }

/-- `Commands.undo`: pop the most recent action, push it onto the redo
stack, then invert its effect on the filesystem. -/
def undoCmd (st : FsSt) : FsSt :=
  match popLast? st.undoStack with
  | none => { st with lastExit := 1 }
  | some (action, undoRest) =>
      let st := { st with undoStack := undoRest,
                          redoStack := st.redoStack ++ [action] }
      if action.op = "mk_file" then
        match action.existed, action.backup with
        | true, some content =>
            -- restore previous contents from the backup copy
            { st with fs := setA st.fs action.path (.file content),
                      lastExit := 0 }
        | _, _ =>
            if (lookupA st.fs action.path).isSome then
              { st with fs := eraseA st.fs action.path, lastExit := 0 }
            else { st with lastExit := 0 }
      else if action.op = "mk_dir" then
        match lookupA st.fs action.path with
        | some .dir =>
            { st with fs := eraseA st.fs action.path, lastExit := 0 }
        | _ => { st with lastExit := 0 }
      else
        -- dlt/cpy/move records are shaped differently and are outside
        -- the claims; unknown ops report failure
        { st with lastExit := 1 }

/-- `Commands.redo`: pop from the redo stack, push back onto the undo
stack, then re-apply the action (best effort: a redone `mk_file` is
recreated empty). -/
def redoCmd (st : FsSt) : FsSt :=
  match popLast? st.redoStack with
  | none => { st with lastExit := 1 }
  | some (action, redoRest) =>
      let st := { st with redoStack := redoRest,
                          undoStack := st.undoStack ++ [action] }
      if action.op = "mk_file" then
        if (lookupA st.fs action.path).isSome then { st with lastExit := 0 }
        else { st with fs := setA st.fs action.path (.file ""), lastExit := 0 }
      else if action.op = "mk_dir" then
        match lookupA st.fs action.path with
        | none => { st with fs := setA st.fs action.path .dir, lastExit := 0 }
        | some .dir => { st with lastExit := 0 }
        | some (.file _) =>
            -- mkdir over an existing file raises; caught, reported
            { st with lastExit := 1 }
      else { st with lastExit := 1 }

/-! ## Number parsing (Python `int()` / `float()`)

`int()` and `float()` are modelled on the decimal fragment: optional
surrounding whitespace, optional sign, decimal digits, and for floats an
optional fractional part and exponent.  Underscore digit separators and
the `inf`/`nan` spellings are not modelled (no claim reaches them: the
float branch is only entered for texts containing `.`, `e` or `E`).
A parsed number is kept as an exact decimal `m * 10 ^ exp10`; every
float literal a theorem below touches is exactly representable, so the
IEEE rounding of CPython floats never shows through, and Python compares
mixed int/float operands exactly. -/

/-- Decimal value of a digit list. -/
def digitsVal (l : List Char) : Nat :=
  l.foldl (fun a c => a * 10 + (c.toNat - 48)) 0

/-- Embedding of Python `int(s)` on decimal strings. -/
def pyInt? (s : String) : Option Int :=
  let l := stripChars s.data
  let sign : Int := if l.head? = some '-' then -1 else 1
  let l := if l.head? = some '-' || l.head? = some '+' then l.tail else l
  if !l.isEmpty && l.all Char.isDigit then some (sign * digitsVal l)
  else none

/-- An exact decimal number `m * 10 ^ exp10` (the result of a Python
numeric parse). -/
structure PyNum where
  m : Int
  exp10 : Int
deriving DecidableEq, Repr

/-- Bring two decimals to a common scale: the pair of cross-scaled
mantissas, whose integer comparison decides the numeric comparison. -/
def pnScale (a b : PyNum) : Int × Int :=
  let low := min a.exp10 b.exp10
  (a.m * 10 ^ (a.exp10 - low).toNat, b.m * 10 ^ (b.exp10 - low).toNat)

/-- Numeric equality of parsed numbers (Python `==` on numbers). -/
def pnEq (a b : PyNum) : Bool :=
  let p := pnScale a b
  p.1 = p.2

/-- Numeric strict order on parsed numbers (Python `<` on numbers). -/
def pnLt (a b : PyNum) : Bool :=
  let p := pnScale a b
  p.1 < p.2

/-- Numeric non-strict order on parsed numbers (Python `<=`). -/
def pnLe (a b : PyNum) : Bool :=
  let p := pnScale a b
  p.1 ≤ p.2

/-- Exponent suffix of a Python float literal: empty means exponent 0,
otherwise `e`/`E`, an optional sign, and digits. -/
def floatExp? : List Char → Option Int
  | [] => some 0
  | c :: rest =>
      if c = 'e' || c = 'E' then
        let sign : Int := if rest.head? = some '-' then -1 else 1
        let d := if rest.head? = some '-' || rest.head? = some '+' then
                   rest.tail else rest
        if !d.isEmpty && d.all Char.isDigit then some (sign * digitsVal d)
        else none
      else none

/-- Embedding of Python `float(s)` on decimal literals, as an exact
decimal. -/
def pyFloat? (s : String) : Option PyNum :=
  let l := stripChars s.data
  let sign : Int := if l.head? = some '-' then -1 else 1
  let l := if l.head? = some '-' || l.head? = some '+' then l.tail else l
  let ip := l.takeWhile Char.isDigit
  let rest := l.dropWhile Char.isDigit
  match rest with
  | '.' :: rest2 =>
      let fp := rest2.takeWhile Char.isDigit
      let rest3 := rest2.dropWhile Char.isDigit
      if ip.isEmpty && fp.isEmpty then none
      else
        (floatExp? rest3).map (fun e =>
          { m := sign * digitsVal (ip ++ fp), exp10 := e - fp.length })
  | _ =>
      if ip.isEmpty then none
      else (floatExp? rest).map (fun e => { m := sign * digitsVal ip, exp10 := e })

/-- The operand parsing of the ordering branch of the inline `if`:
`float(x) if "." in str(x) else int(x)` (sigil.py line 4909). -/
def cmpNum? (s : String) : Option PyNum :=
  if s.data.contains '.' then pyFloat? s
  else (pyInt? s).map (fun n => { m := n, exp10 := 0 })

/-- Embedding of Python `s.strip('"')`. -/
def pyStripQuotes (s : String) : String :=
  ⟨((s.data.dropWhile (· = '"')).reverse.dropWhile (· = '"')).reverse⟩

/-- The condition evaluation of the single-line `if` in
`Interpreter.run_lines` (lines 4894-4926): `cond_tokens` is
`tokens[1:then_idx]`. -/
def evalIfCond (vars : Vars) (env : Env) (condTokens : List String) : Bool :=
  if condTokens.length = 1 then
    expandVarsInString vars env (pyStripQuotes (condTokens.getD 0 "")) ≠ ""
  else if condTokens.length ≥ 3 then
    let left := expandVarsInString vars env
      (pyStripQuotes (condTokens.getD 0 ""))
    let op := condTokens.getD 1 ""
    let right := expandVarsInString vars env
      (pyStripQuotes (joinSpace (condTokens.drop 2)))
    if op = "==" || op = "=" then left = right
    else if op = "!=" then left ≠ right
    else if op = "<" || op = ">" || op = "<=" || op = ">=" then
      match cmpNum? left, cmpNum? right with
      | some a, some b =>
          if op = "<" then pnLt a b
          else if op = ">" then pnLt b a
          else if op = "<=" then pnLe a b
          else pnLe b a
      | _, _ => false
    else false
  else false

/-- Modelled from the spec: "both operands are variable-expanded; if
both parse as numbers, compare numerically, else compare lexically as
strings."  A number here is anything Python's numeric parse accepts
(integer or float literal).  This definition follows the spec's words
and is compared against `evalIfCond`, which is translated from the
source. -/
def specNum? (s : String) : Option PyNum :=
  match pyInt? s with
  | some n => some { m := n, exp10 := 0 }
  | none => pyFloat? s

/-- Lexicographic string order by code point (Python `<` on `str`). -/
def strLtB : List Char → List Char → Bool
  | [], [] => false
  | [], _ :: _ => true
  | _ :: _, [] => false
  | a :: as, b :: bs =>
      if a.toNat < b.toNat then true
      else if b.toNat < a.toNat then false
      else strLtB as bs

/-- Modelled from the spec: the spec's comparison semantics for
`if <left> <op> <right> then …`. -/
def specIfCond (vars : Vars) (env : Env) (l op r : String) : Bool :=
  let L := expandVarsInString vars env l
  let R := expandVarsInString vars env r
  match specNum? L, specNum? R with
  | some a, some b =>
      if op = "==" then pnEq a b
      else if op = "!=" then !pnEq a b
      else if op = "<" then pnLt a b
      else if op = ">" then pnLt b a
      else if op = "<=" then pnLe a b
      else if op = ">=" then pnLe b a
      else false
  | _, _ =>
      if op = "==" then L = R
      else if op = "!=" then L ≠ R
      else if op = "<" then strLtB L.data R.data
      else if op = ">" then strLtB R.data L.data
      else if op = "<=" then strLtB L.data R.data || L = R
      else if op = ">=" then strLtB R.data L.data || L = R
      else false

/-! ## Variable store commands (`let` / `unset`) -/

/-- Embedding of Python `set.add`. -/
def setAdd (l : List String) (n : String) : List String :=
  if n ∈ l then l else l ++ [n]

/-- Embedding of Python `set.discard`. -/
def setDiscard (l : List String) (n : String) : List String :=
  l.filter (· ≠ n)

/-- The variable-store state for the `let`/`unset` claims
(`State.variables`, `State.readonly_vars`, `State.exported_vars`,
and the `last` exit code). -/
structure VarSt where
  -- `State.variables` (the name `variables` is reserved in Lean)
  vars : Vars
  readonly : List String
  exported : List String
  lastExit : Int
deriving DecidableEq, Repr

/-- The name/value split of `Commands.let` (lines 3157-3169), applied
after the optional `-r` flag has been stripped; `args` is nonempty. -/
def letParse (args : List String) : String × String :=
  if args.length = 1 then (args.headI, "")
  else if args.length ≥ 3 && args.getD 1 "" = "=" then
    (args.headI, joinSpace (args.drop 2))
  else (args.headI, joinSpace (args.drop 1))

/-- Embedding of Python `s.endswith(p)` for a single-character suffix. -/
def pyEndsWith (s p : String) : Bool := p.data.isSuffixOf s.data

/-- Embedding of `value[1:-1].replace('\\"', '"')`. -/
def unescQuotes : List Char → List Char
  | '\\' :: '"' :: rest => '"' :: unescQuotes rest
  | c :: rest => c :: unescQuotes rest
  | [] => []

/-- The value processing of `Commands.let` (lines 3177-3208): `ask`
sugar (the interactive answer is passed in as `askInput`), quoted
strings, then number parsing. -/
def letFinalValue (vars : Vars) (env : Env) (askInput : String)
    (value : String) : PyVal :=
  let tokens := tokenize value
  if tokens.head? = some "ask" then .vstr askInput
  else if pyStartsWith value "\"" && pyEndsWith value "\"" then
    .vstr (expandVarsInString vars env
      ⟨unescQuotes ((value.data.drop 1).dropLast)⟩)
  else
    let expanded := expandVarsInString vars env value
    if expanded.data.contains '.' || expanded.data.contains 'e' ||
        expanded.data.contains 'E' then
      match pyFloat? expanded with
      | some _ => .vfloat expanded
      | none => .vstr expanded
    else
      match pyInt? expanded with
      | some n => .vint n
      | none => .vstr expanded

/-- `Commands.let`: set a variable, honouring the readonly subset. -/
def letCmd (env : Env) (askInput : String) (args : List String)
    (st : VarSt) : VarSt :=
  if args.isEmpty then { st with lastExit := 1 }
  else
    let ro := args.headI = "-r"
    let args := if ro then args.tail else args
    if args.isEmpty then { st with lastExit := 1 }
    else
      let (name, value) := letParse args
      if name ∈ st.readonly ∧ ¬ro then { st with lastExit := 1 }
      else
        let final := letFinalValue st.vars env askInput value
        let st := { st with vars := setA st.vars name final }
        let st :=
          if ro then { st with readonly := setAdd st.readonly name }
          else { st with readonly := setDiscard st.readonly name }
        { st with lastExit := 0 }

/-- `Commands.unset`: remove a variable unless it is readonly. -/
def unsetCmd (args : List String) (st : VarSt) : VarSt :=
  if args.isEmpty then { st with lastExit := 1 }
  else
    let name := args.headI
    if (lookupA st.vars name).isNone then { st with lastExit := 1 }
    else if name ∈ st.readonly then { st with lastExit := 1 }
    else
      { st with vars := eraseA st.vars name,
                exported := setDiscard st.exported name,
                lastExit := 0 }

/-! ## The control-flow interpreter (`Interpreter.run_lines`)

Python exceptions are modelled by the `Outcome` sum: `err` stands for an
ordinary `Exception` escaping a handler, `brk` for `BreakException`,
`exit` for `SystemExit` (the explicit exit signal).  `KeyboardInterrupt`
(an asynchronous operator interrupt) is not modelled.  The command
registry and the external-process fallback (`ShellRunner.run_and_print`)
are external collaborators per the spec and are passed in as functions;
`ExecutionLogger` calls are pure I/O and are omitted. -/

/-- The result of executing Python code that may raise. -/
inductive Outcome : Type
  | ok
  | err (msg : String)
  | brk
  | exit (code : Int)
deriving DecidableEq, Repr

/-- The interpreter state visible to `run_lines` and command handlers
(`State.variables` and `State.aliases`). -/
structure St where
  vars : Vars
  aliases : Aliases
deriving DecidableEq, Repr

/-- A registry command handler: `handler(args)` acting on the state,
with its raised exception (if any) as the `Outcome`. -/
abbrev Handler : Type := List String → St → St × Outcome

/-- `COMMAND_REGISTRY` as an external collaborator. -/
abbrev Registry : Type := String → Option Handler

/-- `ShellRunner.run_and_print` as an external collaborator: the second
component is the message of a raised exception, `none` on success. -/
abbrev Shell : Type := List String → St → St × Option String

/-- `set_last_exit`: set the `last`/`LAST`/`LAST_EXIT` variables. -/
def setLastExit (st : St) (code : Int) : St :=
  let vs := setA (setA (setA st.vars "last" (.vint code)) "LAST" (.vint code))
    "LAST_EXIT" (.vint code)
  { st with vars := vs }

/-- `Interpreter._execute_line`: expand, tokenize, dispatch to the
registry, else fall back to an external command (whose exceptions are
caught and reported there).  Registry exceptions are re-raised (the
`try` in the source only adds logging). -/
def executeLine (fuel : Nat) (reg : Registry) (sh : Shell) (env : Env)
    (rawLine : String) (st : St) : Option (St × Outcome) :=
  match expandAliasesAndVars st.aliases st.vars env fuel rawLine with
  | none => none
  | some expanded =>
      match tokenize expanded with
      | [] => some (st, .ok)
      | cmd :: args =>
          match reg cmd with
          | some h => some (h args st)
          | none =>
              let (st', exc) := sh (cmd :: args) st
              match exc with
              | none => some (st', .ok)
              | some _ => some (setLastExit st' 1, .ok)

/-- The scanning loop of `Interpreter._collect_block`. -/
def collectBlockAux (startKw endKw : String) :
    List String → Nat → Nat → Option (List String × Nat)
  | [], _, _ => none
  | x :: xs, i, depth =>
      let l := pyStrip x
      if pyStartsWith l startKw then
        (collectBlockAux startKw endKw xs (i + 1) (depth + 1)).map
          (fun p => (x :: p.1, p.2))
      else if l = endKw then
        if depth = 0 then some ([], i)
        else
          (collectBlockAux startKw endKw xs (i + 1) (depth - 1)).map
            (fun p => (x :: p.1, p.2))
      else
        (collectBlockAux startKw endKw xs (i + 1) depth).map
          (fun p => (x :: p.1, p.2))

/-- `Interpreter._collect_block`: collect the block lines from
`startIndex + 1` up to the matching end keyword; `none` is the
`SigilError` for a missing end keyword. -/
def collectBlock (lines : List String) (startIndex : Nat)
    (startKw endKw : String) : Option (List String × Nat) :=
  collectBlockAux startKw endKw (lines.drop (startIndex + 1))
    (startIndex + 1) 0

/-- A line at which the `when`-body collection of the `case` scanner
stops: the next `when` header or the `else` marker. -/
def caseBreakLine (s : String) : Bool :=
  pyStartsWith (pyStrip s) "when " || pyStrip s = "else"

/-- The `when`-body collection loop of the `case` handler
(lines 4840-4847): the body lines before the next `when`/`else`, and
the remaining lines from that point. -/
def collectUntil (ls : List String) : List String × List String :=
  (ls.takeWhile (fun l => !caseBreakLine l),
   ls.dropWhile (fun l => !caseBreakLine l))

/-- The `when`/`else` scanning loop of the `case` handler
(lines 4830-4864), returning the chosen `when` body (empty when no
`when` matched) and the collected `else` block.  The scan consumes at
least one line per step, so the fuel `length + 1` supplied by
`caseScan` is never exhausted. -/
def caseScanF (v : String) : Nat → List String → List String × List String
  | 0, _ => ([], [])
  | _ + 1, [] => ([], [])
  | f + 1, x :: xs =>
      let l := pyStrip x
      if pyStartsWith l "when " then
        let vals := pySplitWs (pyDrop l 5)
        let buffRest := collectUntil xs
        if vals.contains v then (buffRest.1, [])
        else caseScanF v f buffRest.2
      else if l = "else" then ([], xs)
      else caseScanF v f xs

/-- The `case` scanner on a block. -/
def caseScan (v : String) (blockLines : List String) :
    List String × List String :=
  caseScanF v (blockLines.length + 1) blockLines

/-- The block chosen by a `case` (lines 4826-4867): the first matching
`when`'s body; when that is empty and an `else` block was collected, the
`else` block (Python truthiness of `chosen_block`). -/
def caseChoose (blockLines : List String) (v : String) : List String :=
  let p := caseScan v blockLines
  if p.1.isEmpty && !p.2.isEmpty then p.2 else p.1

/-- Index of the first occurrence (Python `list.index`; callers guard
with a membership test). -/
def idxOf (l : List String) (x : String) : Nat :=
  match l with
  | [] => 0
  | a :: rest => if a = x then 0 else idxOf rest x + 1

/-- The repetition loop of the `rpt` handler: run the block up to
`count` times (`none` = `inf`), stopping early at a `BreakException`;
other exceptions propagate.  After the loop the caller sets the last
exit code to 0. -/
def rptLoop (run : St → Option (St × Outcome)) :
    Nat → Option Int → St → Option (St × Outcome)
  | 0, _, _ => none
  | f + 1, count, st =>
      match count with
      | some n =>
          if n ≤ 0 then some (st, .ok)
          else
            match run st with
            | none => none
            | some (st', Outcome.brk) => some (st', Outcome.ok)
            | some (st', Outcome.ok) => rptLoop run f (some (n - 1)) st'
            | some (st', o) => some (st', o)
      | none =>
          match run st with
          | none => none
          | some (st', Outcome.brk) => some (st', Outcome.ok)
          | some (st', Outcome.ok) => rptLoop run f none st'
          | some (st', o) => some (st', o)

/-- The parsing of the `rpt` count token (`inf` or `int(tok)`);
`none` is the "Invalid rpt count" error. -/
def rptCount? (tok : String) : Option (Option Int) :=
  if tok = "inf" then some none else (pyInt? tok).map some

/-- The main cursor loop of `Interpreter.run_lines`
(lines 4679-4955), over the comment-stripped line buffer.  One unit of
fuel is consumed per handled line and per nested block execution; a
`none` result means the run needs more fuel (`rpt inf`, `goto` loops and
alias expansion can genuinely not terminate). -/
def runLinesAux (reg : Registry) (sh : Shell) (env : Env) :
    Nat → List String → List (String × Nat) → Nat → St →
    Option (St × Outcome)
  | 0, _, _, _, _ => none
  | f + 1, cleaned, labels, index, st =>
      match cleaned.get? index with
      | none => some (st, .ok)
      | some rawLine =>
          let line := pyStrip rawLine
          -- Skip empty lines or label definitions
          if line = "" then
            runLinesAux reg sh env f cleaned labels (index + 1) st
          else if (labelName? line).isSome then
            runLinesAux reg sh env f cleaned labels (index + 1) st
          else
            match tokenize line with
            | [] => runLinesAux reg sh env f cleaned labels (index + 1) st
            | cmd :: targs =>
                -- GOTO handling
                if cmd = "goto" then
                  match targs with
                  | lbl :: _ =>
                      match lookupA labels lbl with
                      | some target =>
                          runLinesAux reg sh env f cleaned labels target st
                      | none =>
                          runLinesAux reg sh env f cleaned labels
                            (index + 1) (setLastExit st 1)
                  | [] =>
                      runLinesAux reg sh env f cleaned labels (index + 1)
                        (setLastExit st 1)
                -- RPT handling (inline or block)
                else if cmd = "rpt" then
                  if targs.length ≥ 2 then
                    -- Inline form: rpt <count|inf> <command...>
                    match rptCount? targs.headI with
                    | none =>
                        runLinesAux reg sh env f cleaned labels (index + 1)
                          (setLastExit st 1)
                    | some count =>
                        let blockLines := [joinSpace targs.tail]
                        match rptLoop (fun s =>
                            let cl := cleanLines blockLines false
                            runLinesAux reg sh env f cl (buildLabelMap cl)
                              0 s) f count st with
                        | none => none
                        | some (st', Outcome.ok) =>
                            runLinesAux reg sh env f cleaned labels
                              (index + 1) (setLastExit st' 0)
                        | some (st', o) => some (st', o)
                  else if targs.length = 1 then
                    -- Block form: rpt <count|inf> ... endrpt
                    match rptCount? targs.headI with
                    | none =>
                        runLinesAux reg sh env f cleaned labels (index + 1)
                          (setLastExit st 1)
                    | some count =>
                        match collectBlock cleaned index "rpt" "endrpt" with
                        | none => some (setLastExit st 1, .ok)
                        | some (blockLines, endIdx) =>
                            match rptLoop (fun s =>
                                let cl := cleanLines blockLines false
                                runLinesAux reg sh env f cl
                                  (buildLabelMap cl) 0 s) f count st with
                            | none => none
                            | some (st', Outcome.ok) =>
                                runLinesAux reg sh env f cleaned labels
                                  (endIdx + 1) (setLastExit st' 0)
                            | some (st', o) => some (st', o)
                  else
                    -- malformed rpt
                    runLinesAux reg sh env f cleaned labels (index + 1)
                      (setLastExit st 1)
                -- CASE handling
                else if cmd = "case" then
                  match targs with
                  | [] =>
                      runLinesAux reg sh env f cleaned labels (index + 1)
                        (setLastExit st 1)
                  | varName :: _ =>
                      let varValue := resolveVar st.vars env varName
                      match collectBlock cleaned index "case" "endcase" with
                      | none => some (setLastExit st 1, .ok)
                      | some (blockLines, endIdx) =>
                          let chosen := caseChoose blockLines varValue
                          if chosen.isEmpty then
                            runLinesAux reg sh env f cleaned labels
                              (endIdx + 1) st
                          else
                            let cl := cleanLines chosen false
                            match runLinesAux reg sh env f cl
                                (buildLabelMap cl) 0 st with
                            | none => none
                            | some (st', Outcome.ok) =>
                                runLinesAux reg sh env f cleaned labels
                                  (endIdx + 1) (setLastExit st' 0)
                            | some (st', Outcome.brk) =>
                                runLinesAux reg sh env f cleaned labels
                                  (endIdx + 1) st'
                            | some (st', o) => some (st', o)
                -- 'if' inline handling: if <cond> then <command>
                else if cmd = "if" then
                  let tokens := cmd :: targs
                  if tokens.contains "then" then
                    let thenIdx := idxOf tokens "then"
                    let condTokens := (tokens.drop 1).take (thenIdx - 1)
                    let cmdTokens := tokens.drop (thenIdx + 1)
                    if evalIfCond st.vars env condTokens then
                      match executeLine f reg sh env (joinSpace cmdTokens)
                          st with
                      | none => none
                      | some (st', Outcome.ok) =>
                          runLinesAux reg sh env f cleaned labels
                            (index + 1) st'
                      -- only BreakException is (re-)raised explicitly;
                      -- err and exit propagate uncaught
                      | some (st', o) => some (st', o)
                    else
                      runLinesAux reg sh env f cleaned labels (index + 1) st
                  else
                    runLinesAux reg sh env f cleaned labels (index + 1)
                      (setLastExit st 1)
                -- 'brk' spelled as a command
                else if cmd = "brk" then some (st, .brk)
                -- Regular command execution
                else
                  match executeLine f reg sh env line st with
                  | none => none
                  | some (st', Outcome.ok) =>
                      runLinesAux reg sh env f cleaned labels (index + 1) st'
                  | some (st', Outcome.brk) => some (st', .brk)
                  | some (st', Outcome.exit c) => some (st', .exit c)
                  | some (st', Outcome.err _) =>
                      runLinesAux reg sh env f cleaned labels (index + 1)
                        (setLastExit st' 1)

/-- `Interpreter.run_lines`: strip comments, build the label map, run. -/
def runLines (reg : Registry) (sh : Shell) (env : Env) (fuel : Nat)
    (lines : List String) (st : St) : Option (St × Outcome) :=
  let cl := cleanLines lines false
  runLinesAux reg sh env fuel cl (buildLabelMap cl) 0 st

/-- The command loop of `FunctionCommands.clf` (lines 2165-2191): each
stored command is expanded and executed; `SystemExit` propagates, a
`BreakException` stops the remaining body (the function still completes
with exit code 0), any other error aborts the remaining body with exit
code 1 without propagating. -/
def clfLoop (fuel : Nat) (reg : Registry) (sh : Shell) (env : Env) :
    List String → St → Option (St × Outcome)
  | [], st => some (setLastExit st 0, .ok)
  | cmd :: rest, st =>
      match expandAliasesAndVars st.aliases st.vars env fuel cmd with
      | none => none
      | some expanded =>
          match executeLine fuel reg sh env expanded st with
          | none => none
          | some (st', Outcome.exit c) => some (st', .exit c)
          | some (st', Outcome.brk) => some (setLastExit st' 0, .ok)
          | some (st', Outcome.err _) => some (setLastExit st' 1, .ok)
          | some (st', Outcome.ok) => clfLoop fuel reg sh env rest st'

/-- `FunctionCommands.clf`: call a user-defined function. -/
def clf (fuel : Nat) (reg : Registry) (sh : Shell) (env : Env)
    (functions : List (String × List String)) (args : List String)
    (st : St) : Option (St × Outcome) :=
  match args with
  | [] => some (setLastExit st 1, .ok)
  | name :: _ =>
      match lookupA functions name with
      | none => some (setLastExit st 1, .ok)
      | some commands => clfLoop fuel reg sh env commands st

/-! ## Concrete collaborators used by the closed interpreter runs -/

/-- A recording handler: `mark <name>` sets variable `<name>` to 1. -/
def hMark : Handler :=
  fun args st => ({ st with vars := setA st.vars args.headI (.vint 1) }, .ok)

/-- A handler that raises an ordinary `Exception`. -/
def hBoom : Handler := fun _ st => (st, .err "boom")

/-- A handler that raises the explicit exit signal with status 3
(like `Commands.exit_cmd`). -/
def hExit : Handler := fun _ st => (st, .exit 3)

/-- A small concrete command registry for the closed runs. -/
def testReg : Registry := fun c =>
  if c = "mark" then some hMark
  else if c = "boom" then some hBoom
  else if c = "exitc" then some hExit
  else none

/-- An external-process fallback that always fails (command not found). -/
def shNone : Shell := fun _ st => (st, some "not found")

/-- A sample action record for witnesses. -/
def act0 : Action := { op := "mk_dir", path := "p", existed := false, backup := none }

/-! ## Claim C2: the undo journal push -/

/-- **C2.**  Every `UndoManager.push` appends the new action to the undo
stack, unconditionally clears the redo stack, evicts exactly the oldest
entry once the capacity `UNDO_LIMIT = 200` is exceeded (and only then),
and so never grows the undo stack beyond the capacity. -/
theorem C2_push_journal (u r : List Action) (a : Action) :
    (pushCore u r a).2 = [] ∧
    (u.length < UNDO_LIMIT → (pushCore u r a).1 = u ++ [a]) ∧
    (UNDO_LIMIT ≤ u.length → (pushCore u r a).1 = u.tail ++ [a]) ∧
    (u.length ≤ UNDO_LIMIT → (pushCore u r a).1.length ≤ UNDO_LIMIT) := by
  have h200 : UNDO_LIMIT = 200 := rfl
  have hexp : (pushCore u r a).1 =
      if (u ++ [a]).length > UNDO_LIMIT then (u ++ [a]).tail else (u ++ [a]) :=
    rfl
  have hl : (u ++ [a]).length = u.length + 1 := by simp
  refine ⟨rfl, ?_, ?_, ?_⟩
  · intro h
    rw [hexp, if_neg (by omega)]
  · intro h
    rw [hexp, if_pos (by omega)]
    cases u with
    | nil => rw [h200] at h; simp at h
    | cons x xs => simp
  · intro h
    rw [hexp]
    by_cases hc : (u ++ [a]).length > UNDO_LIMIT
    · rw [if_pos hc]
      cases u with
      | nil => rw [h200] at hc ⊢; simp at hc
      | cons x xs =>
          rw [h200] at hc h ⊢
          simp only [List.cons_append, List.tail_cons, List.length_append,
            List.length_cons, List.length_nil] at hc h ⊢
          omega
    · rw [if_neg hc]
      omega

/-- Witness for C2 at concrete inputs: pushing onto a one-element stack
with a pending redo entry clears the redo stack and appends; pushing
onto a full stack of 200 entries evicts the oldest. -/
theorem C2_push_journal_witness :
    (pushCore [act0] [act0] act0).2 = [] ∧
    (pushCore [act0] [act0] act0).1 = [act0, act0] ∧
    (pushCore (List.replicate 200 act0) [] act0).1 =
      (List.replicate 200 act0).tail ++ [act0] := by
  refine ⟨(C2_push_journal [act0] [act0] act0).1, ?_, ?_⟩
  · exact ((C2_push_journal [act0] [act0] act0).2.1 (by norm_num [UNDO_LIMIT]))
  · exact ((C2_push_journal (List.replicate 200 act0) [] act0).2.2.1
      (by rw [List.length_replicate]; norm_num [UNDO_LIMIT]))

/-! ## Claim C3: alias self-reference does not terminate (code bug) -/

/-- **C3 (code bug).**  The claim says a self-referential alias
terminates within `ALIAS_RECURSION_LIMIT` with silent truncation, and
the source's own comments say the same ("Recursive expansion with depth
limit"), but after the bounded loop `expand_aliases_and_vars`
unconditionally calls itself on the still-alias-headed line: with the
alias table `{a ↦ a}` the expansion of the line `"a"` needs more fuel
than any bound (CPython dies with `RecursionError` instead of
truncating silently). -/
theorem C3_alias_divergence :
    ∀ fuel, expandAliasesAndVars [("a", "a")] [] [] fuel "a" = none := by
  intro fuel
  induction fuel with
  | zero => decide
  | succ f ih =>
      have step : expandAliasesAndVars [("a", "a")] [] [] (f + 1) "a" =
          expandAliasesAndVars [("a", "a")] [] [] f "a" := rfl
      rw [step, ih]

/-! ## Claim C4: the single-line `if` comparison semantics -/

/-- **C4 counterexample.**  The claim (and spec) say that when both
expanded operands parse as numbers the comparison is numeric, else
lexical.  In the source, `==` (and `!=`) always compare the operand
strings: `if 5 == 5.0` is false although both operands are numbers and
are numerically equal; and `<` never falls back to a lexical comparison:
`if a < b` is false although lexically `"a" < "b"`. -/
theorem C4_if_comparison_counterexample :
    evalIfCond [] [] ["5", "==", "5.0"] = false ∧
    specIfCond [] [] "5" "==" "5.0" = true ∧
    evalIfCond [] [] ["a", "<", "b"] = false ∧
    specIfCond [] [] "a" "<" "b" = true := by
  refine ⟨by decide, by decide, by decide, by decide⟩

/-- **C4 (amended).**  For `if <left> <op> <right> then …` both operands
are variable-expanded (after stripping surrounding double quotes, the
right operand being the space-join of the remaining condition tokens);
`==`/`=` and `!=` always compare the expanded operands as strings, never
numerically; `<`, `>`, `<=`, `>=` always compare numerically — parsing
each operand as a float exactly when its text contains a `.` and as an
int otherwise — and the condition is false whenever either operand fails
to parse, never falling back to a lexical comparison.  A lone condition
token is truthy iff its expansion is non-empty. -/
theorem C4_if_comparison_amended (vars : Vars) (env : Env) :
    (∀ t, evalIfCond vars env [t] = true ↔
      expandVarsInString vars env (pyStripQuotes t) ≠ "") ∧
    (∀ l op rs, rs ≠ [] → (op = "==" ∨ op = "=") →
      (evalIfCond vars env (l :: op :: rs) = true ↔
        expandVarsInString vars env (pyStripQuotes l) =
          expandVarsInString vars env (pyStripQuotes (joinSpace rs)))) ∧
    (∀ l rs, rs ≠ [] →
      (evalIfCond vars env (l :: "!=" :: rs) = true ↔
        expandVarsInString vars env (pyStripQuotes l) ≠
          expandVarsInString vars env (pyStripQuotes (joinSpace rs)))) ∧
    (∀ l op rs, rs ≠ [] → (op = "<" ∨ op = ">" ∨ op = "<=" ∨ op = ">=") →
      evalIfCond vars env (l :: op :: rs) =
        (match cmpNum? (expandVarsInString vars env (pyStripQuotes l)),
               cmpNum? (expandVarsInString vars env
                 (pyStripQuotes (joinSpace rs))) with
         | some a, some b =>
             if op = "<" then pnLt a b
             else if op = ">" then pnLt b a
             else if op = "<=" then pnLe a b
             else pnLe b a
         | _, _ => false)) := by
  refine ⟨?_, ?_, ?_, ?_⟩
  · intro t
    simp [evalIfCond]
  · intro l op rs hrs hop
    have hrs1 : 1 ≤ rs.length := by
      cases rs with
      | nil => exact absurd rfl hrs
      | cons x xs => simp
    rcases hop with h | h <;> subst h <;>
      simp [evalIfCond, hrs1, List.getD]
  · intro l rs hrs
    have hrs1 : 1 ≤ rs.length := by
      cases rs with
      | nil => exact absurd rfl hrs
      | cons x xs => simp
    simp [evalIfCond, hrs1, List.getD]
  · intro l op rs hrs hop
    have hrs1 : 1 ≤ rs.length := by
      cases rs with
      | nil => exact absurd rfl hrs
      | cons x xs => simp
    rcases hop with h | h | h | h <;> subst h <;>
      simp [evalIfCond, hrs1, List.getD]

/-- Witness for C4 (amended) at concrete inputs. -/
theorem C4_if_comparison_amended_witness :
    evalIfCond [] [] ["abc", "==", "abc"] = true ∧
    evalIfCond [] [] ["2", "<", "10.5"] =
      (match cmpNum? "2", cmpNum? "10.5" with
       | some a, some b => pnLt a b
       | _, _ => false) := by
  constructor
  · exact ((C4_if_comparison_amended [] []).2.1 "abc" "==" ["abc"]
      (by decide) (Or.inl rfl)).mpr (by decide)
  · have h := (C4_if_comparison_amended [] []).2.2.2 "2" "<" ["10.5"]
      (by decide) (Or.inl rfl)
    simpa using h

/-! ## Claim C7: `$name` / `${name}` expansion and resolution order -/

/-- A Python identifier string (`[A-Za-z_][A-Za-z0-9_]*`). -/
def isIdentStr (s : String) : Bool :=
  match s.data with
  | [] => false
  | c :: cs => identStart c && cs.all identChar

theorem identTake_full (c : Char) (cs : List Char)
    (h1 : identStart c = true) (h2 : cs.all identChar = true) :
    identTake (c :: cs) = some (c :: cs, []) := by
  have ht : cs.takeWhile identChar = cs :=
    List.takeWhile_eq_self_iff.mpr (fun x hx => List.all_eq_true.mp h2 x hx)
  have hdw : cs.dropWhile identChar = [] :=
    List.dropWhile_eq_nil_iff.mpr (fun x hx => List.all_eq_true.mp h2 x hx)
  simp [identTake, h1, ht, hdw]

theorem expandVarsCore_nil (vars : Vars) (env : Env) (f : Nat) :
    expandVarsCore vars env f [] = [] := by
  cases f <;> rfl

/-- One scanner step on `"$" ++ identifier`: the whole identifier is
consumed and resolved. -/
theorem expandVarsCore_ident (vars : Vars) (env : Env) (f : Nat)
    (c : Char) (cs : List Char)
    (h1 : identStart c = true) (h2 : cs.all identChar = true) :
    expandVarsCore vars env (f + 1) ('$' :: c :: cs) =
      (resolveVar vars env ⟨c :: cs⟩).data := by
  have hc : ¬ c = '\x7b' := by
    intro he
    subst he
    simp [identStart] at h1
  rw [expandVarsCore]
  rw [if_neg (by decide), if_pos rfl]
  have hh : (c :: cs).head? = some c := rfl
  rw [hh, if_neg (by simp [hc])]
  rw [identTake_full c cs h1 h2]
  simp [expandVarsCore_nil]

/-- **C7.**  With `x = 5` in the variable store, expanding
`"value=$x"` yields `"value=5"` whatever the environment; expanding
`"$y"` when `y` is neither in the store nor in the environment yields
the empty string; and in general a `$name` reference resolves against
the variable store first, then the process environment, else the empty
string (`resolveVar`). -/
theorem C7_expand_vars :
    (∀ env : Env,
      expandVarsInString [("x", .vint 5)] env "value=$x" = "value=5") ∧
    (∀ (vars : Vars) (env : Env), lookupA vars "y" = none →
      lookupA env "y" = none → expandVarsInString vars env "$y" = "") ∧
    (∀ (vars : Vars) (env : Env) (name : String), isIdentStr name = true →
      expandVarsInString vars env ("$" ++ name) = resolveVar vars env name) := by
  have main : ∀ (vars : Vars) (env : Env) (name : String),
      isIdentStr name = true →
      expandVarsInString vars env ("$" ++ name) = resolveVar vars env name := by
    intro vars env name h
    cases hd : name.data with
    | nil => simp [isIdentStr, hd] at h
    | cons c cs =>
        simp only [isIdentStr, hd, Bool.and_eq_true] at h
        have hdata : ("$" ++ name).data = '$' :: c :: cs := by
          rw [String.data_append, hd]
          rfl
        unfold expandVarsInString
        rw [hdata]
        have hlen : ('$' :: c :: cs).length + 1 = (cs.length + 2) + 1 := by
          simp
        rw [hlen, expandVarsCore_ident vars env (cs.length + 2) c cs h.1 h.2]
        have hn : (⟨c :: cs⟩ : String) = name := by rw [← hd]
        rw [hn]
  refine ⟨?_, ?_, main⟩
  · intro env
    rfl
  · intro vars env h1 h2
    have h := main vars env "y" (by decide)
    have hy : ("$" ++ "y" : String) = "$y" := rfl
    rw [hy] at h
    rw [h, resolveVar, h1, h2]

/-- Witness for C7 at concrete inputs. -/
theorem C7_expand_vars_witness :
    expandVarsInString [("x", PyVal.vint 5)] [("z", "1")] "value=$x" =
      "value=5" ∧
    expandVarsInString [("x", PyVal.vint 5)] [("z", "1")] "$y" = "" ∧
    expandVarsInString [] [("home", "/root")] ("$" ++ "home") =
      resolveVar [] [("home", "/root")] "home" := by
  refine ⟨C7_expand_vars.1 [("z", "1")], ?_, ?_⟩
  · exact C7_expand_vars.2.1 [("x", PyVal.vint 5)] [("z", "1")] (by decide)
      (by decide)
  · exact C7_expand_vars.2.2 [] [("home", "/root")] "home" (by decide)

/-! ## Claim C10: non-alias lines are re-emitted space-joined -/

/-- **C10.**  For any line whose token list is non-empty with a
non-alias first token, `expand_aliases_and_vars` returns the per-token
expansions joined by exactly one space; consequently the expansion
depends only on the token list, so whitespace runs in the input never
survive. -/
theorem C10_nonalias_expansion (aliases : Aliases) (vars : Vars) (env : Env)
    (fuel : Nat) (line : String) (c : String) (args : List String)
    (htok : tokenize line = c :: args) (halias : lookupA aliases c = none) :
    expandAliasesAndVars aliases vars env fuel line =
      some (joinSpace ((c :: args).map (expandToken vars env))) ∧
    ∀ line', tokenize line' = c :: args →
      expandAliasesAndVars aliases vars env fuel line' =
        expandAliasesAndVars aliases vars env fuel line := by
  have main : ∀ l', tokenize l' = c :: args →
      expandAliasesAndVars aliases vars env fuel l' =
        some (joinSpace ((c :: args).map (expandToken vars env))) := by
    intro l' ht
    rw [expandAliasesAndVars, ht]
    simp [halias]
  exact ⟨main line htok, fun l' ht => (main l' ht).trans (main line htok).symm⟩

/-- Witness for C10 at a concrete input: leading, trailing and internal
whitespace runs collapse. -/
theorem C10_nonalias_expansion_witness :
    expandAliasesAndVars [] [] [] 0 "  say   hi  " = some "say hi" ∧
    expandAliasesAndVars [] [] [] 0 "  say   hi  " =
      expandAliasesAndVars [] [] [] 0 "say hi" := by
  constructor
  · exact (C10_nonalias_expansion [] [] [] 0 "  say   hi  " "say" ["hi"]
      (by decide) rfl).1.trans (by decide)
  · exact ((C10_nonalias_expansion [] [] [] 0 "say hi" "say" ["hi"]
      (by decide) rfl).2 "  say   hi  " (by decide)).symm ▸ rfl

/-! ## Claim C8: the readonly variable subset -/

theorem letParse_fst (n : String) (rest : List String) :
    (letParse (n :: rest)).1 = n := by
  unfold letParse
  split
  · rfl
  · split <;> rfl

theorem mem_setAdd_self (l : List String) (n : String) : n ∈ setAdd l n := by
  unfold setAdd
  split
  · assumption
  · simp

/-- **C8.**  A `let` write to a readonly name without the `-r` flag is
rejected and changes nothing but the reported exit code; a write that
carries the `-r` flag succeeds (the stored value becomes the computed
value and the name stays readonly); and `unset` of a readonly name is
always rejected, leaving the whole store unchanged (so the variable
stays present). -/
theorem C8_readonly_vars (env : Env) (ask : String) (st : VarSt)
    (name : String) :
    (name ∈ st.readonly → name ≠ "-r" → ∀ rest,
      letCmd env ask (name :: rest) st = { st with lastExit := 1 }) ∧
    (name ∈ st.readonly → ∀ rest,
      (letCmd env ask ("-r" :: name :: rest) st).vars =
        setA st.vars name
          (letFinalValue st.vars env ask (letParse (name :: rest)).2) ∧
      name ∈ (letCmd env ask ("-r" :: name :: rest) st).readonly ∧
      (letCmd env ask ("-r" :: name :: rest) st).lastExit = 0) ∧
    (∀ v, name ∈ st.readonly → lookupA st.vars name = some v →
      unsetCmd [name] st = { st with lastExit := 1 }) := by
  refine ⟨?_, ?_, ?_⟩
  · intro hmem hne rest
    simp [letCmd, hne, letParse_fst, hmem]
  · intro hmem rest
    simp [letCmd, letParse_fst, hmem, mem_setAdd_self]
  · intro v hmem hv
    simp [unsetCmd, hv, hmem]

/-- A concrete variable-store state with readonly `k`. -/
def vst0 : VarSt :=
  { vars := [("k", PyVal.vstr "v")], readonly := ["k"], exported := [],
    lastExit := 0 }

/-- Witness for C8 at concrete inputs. -/
theorem C8_readonly_vars_witness :
    letCmd [] "" ["k", "2"] vst0 = { vst0 with lastExit := 1 } ∧
    (letCmd [] "" ["-r", "k", "2"] vst0).vars =
      setA vst0.vars "k"
        (letFinalValue vst0.vars [] "" (letParse ["k", "2"]).2) ∧
    "k" ∈ (letCmd [] "" ["-r", "k", "2"] vst0).readonly ∧
    unsetCmd ["k"] vst0 = { vst0 with lastExit := 1 } := by
  refine ⟨?_, ?_, ?_, ?_⟩
  · exact (C8_readonly_vars [] "" vst0 "k").1 (by decide) (by decide) ["2"]
  · exact ((C8_readonly_vars [] "" vst0 "k").2.1 (by decide) ["2"]).1
  · exact ((C8_readonly_vars [] "" vst0 "k").2.1 (by decide) ["2"]).2.1
  · exact (C8_readonly_vars [] "" vst0 "k").2.2 (PyVal.vstr "v") (by decide)
      (by decide)

/-! ## Claims C5 and C9: undo/redo of the `mk` command -/

theorem popLast?_append {α : Type} (l : List α) (a : α) :
    popLast? (l ++ [a]) = some (a, l) := by
  induction l with
  | nil => rfl
  | cons x xs ih => simp [popLast?, ih]

/-- The stack produced by `UndoManager.push` always ends with the pushed
action. -/
theorem pushCore_shape (u r : List Action) (a : Action) :
    ∃ u', (pushCore u r a).1 = u' ++ [a] := by
  have hexp : (pushCore u r a).1 =
      if (u ++ [a]).length > UNDO_LIMIT then (u ++ [a]).tail else (u ++ [a]) :=
    rfl
  by_cases h : (u ++ [a]).length > UNDO_LIMIT
  · rw [hexp, if_pos h]
    cases u with
    | nil => simp [UNDO_LIMIT] at h
    | cons x xs => exact ⟨xs, by simp⟩
  · rw [hexp, if_neg h]
    exact ⟨u, rfl⟩

theorem lookupA_setA_self_isSome {α : Type} (l : List (String × α))
    (k : String) (v : α) : (lookupA (setA l k v) k).isSome = true := by
  rw [lookupA_setA_self]
  rfl


/-- One `undo` step on a stack ending with a no-backup `mk_file` record
whose path currently exists: the path is removed and the record moves to
the redo stack. -/
theorem undo_mk_file_step (F : List (String × Entry)) (u r : List Action)
    (e : Int) (P : String) (hF : (lookupA F P).isSome = true) :
    undoCmd
        { fs := F,
          undoStack := u ++ [{ op := "mk_file", path := P, existed := false, backup := none }],
          redoStack := r, lastExit := e } =
      { fs := eraseA F P, undoStack := u,
        redoStack := r ++ [{ op := "mk_file", path := P, existed := false, backup := none }],
        lastExit := 0 } := by
  simp only [undoCmd, popLast?_append]
  simp [hF]

/-- One `redo` step on a redo stack ending with a `mk_file` record whose
path is currently absent: an empty file is recreated and the record
moves back to the undo stack. -/
theorem redo_mk_file_step (F : List (String × Entry)) (u r : List Action)
    (e : Int) (P : String) (hF : lookupA F P = none) :
    redoCmd
        { fs := F, undoStack := u,
          redoStack := r ++ [{ op := "mk_file", path := P, existed := false, backup := none }],
          lastExit := e } =
      { fs := setA F P (.file ""),
        undoStack := u ++ [{ op := "mk_file", path := P, existed := false, backup := none }],
        redoStack := r, lastExit := 0 } := by
  simp only [redoCmd, popLast?_append]
  simp [hF]

/-- **C5.**  Creating a file at a path `P` that does not pre-exist and
then undoing removes `P`; a redo recreates `P` (as an empty file, the
best-effort recreation in the source); and two successive undo/redo
cycles leave the filesystem at `P` in the same state each time. -/
theorem C5_undo_redo_mk_file (st : FsSt) (P : String) (rest : List String)
    (h : lookupA st.fs P = none) :
    lookupA (undoCmd (mk ("file" :: P :: rest) st)).fs P = none ∧
    lookupA (redoCmd (undoCmd (mk ("file" :: P :: rest) st))).fs P =
      some (.file "") ∧
    lookupA (undoCmd (redoCmd (undoCmd (mk ("file" :: P :: rest) st)))).fs
        P = lookupA (undoCmd (mk ("file" :: P :: rest) st)).fs P ∧
    lookupA (redoCmd (undoCmd (redoCmd (undoCmd
        (mk ("file" :: P :: rest) st))))).fs P =
      lookupA (redoCmd (undoCmd (mk ("file" :: P :: rest) st))).fs P := by
  obtain ⟨u', hu⟩ := pushCore_shape st.undoStack st.redoStack
    { op := "mk_file", path := P, existed := false, backup := none }
  have hs1 : mk ("file" :: P :: rest) st =
      { fs := setA st.fs P
          (.file (if ("file" :: P :: rest).length > 2
            then joinSpace (("file" :: P :: rest).drop 2) else "")),
        undoStack := u' ++ [{ op := "mk_file", path := P, existed := false, backup := none }],
        redoStack := [], lastExit := 0 } := by
    simp only [mk, List.headI_cons, List.getD_cons_succ, List.getD_cons_zero,
      h, Option.isSome_none, pushAction, Bool.false_eq_true, ite_false,
      List.length_cons]
    rw [hu]
    have h2 : ¬ (rest.length + 1 + 1 < 2) := by omega
    simp [h2, pushCore]
  have hs2 := undo_mk_file_step
    (setA st.fs P (.file (if ("file" :: P :: rest).length > 2
      then joinSpace (("file" :: P :: rest).drop 2) else "")))
    u' [] 0 P (lookupA_setA_self_isSome _ _ _)
  have hs3 := redo_mk_file_step
    (eraseA (setA st.fs P (.file (if ("file" :: P :: rest).length > 2
      then joinSpace (("file" :: P :: rest).drop 2) else ""))) P)
    u' [] 0 P (lookupA_eraseA_self _ _)
  have hs4 := undo_mk_file_step
    (setA (eraseA (setA st.fs P (.file (if ("file" :: P :: rest).length > 2
      then joinSpace (("file" :: P :: rest).drop 2) else ""))) P) P (.file ""))
    u' [] 0 P (lookupA_setA_self_isSome _ _ _)
  have hs5 := redo_mk_file_step
    (eraseA (setA (eraseA (setA st.fs P
      (.file (if ("file" :: P :: rest).length > 2
        then joinSpace (("file" :: P :: rest).drop 2) else ""))) P) P
      (.file "")) P)
    u' [] 0 P (lookupA_eraseA_self _ _)
  rw [hs1, hs2]
  simp only [List.nil_append] at hs3 ⊢
  rw [hs3, hs4]
  simp only [List.nil_append] at hs5 ⊢
  rw [hs5]
  refine ⟨lookupA_eraseA_self _ _, lookupA_setA_self _ _ _, ?_, ?_⟩
  · rw [lookupA_eraseA_self, lookupA_eraseA_self]
  · rw [lookupA_setA_self, lookupA_setA_self]

/-- A concrete initial filesystem state for witnesses. -/
def fsSt0 : FsSt := { fs := [], undoStack := [], redoStack := [], lastExit := 0 }

/-- Witness for C5 at concrete inputs. -/
theorem C5_undo_redo_mk_file_witness :
    lookupA (undoCmd (mk ["file", "a.txt", "hello"] fsSt0)).fs "a.txt" =
      none ∧
    lookupA (redoCmd (undoCmd (mk ["file", "a.txt", "hello"] fsSt0))).fs
      "a.txt" = some (.file "") := by
  have h := C5_undo_redo_mk_file fsSt0 "a.txt" ["hello"] (by decide)
  exact ⟨h.1, h.2.1⟩

/-- **C9.**  Running `mk dir P` when `P` already exists as a directory
creates nothing, yet still pushes a `mk_dir` action whose
previous-existence flag is true; the `mk_dir` undo arm ignores that flag
and removes whatever directory is at the recorded path, so undoing the
no-op creation deletes the pre-existing directory. -/
theorem C9_mk_dir_undo_deletes_preexisting (st : FsSt) (P : String)
    (h : lookupA st.fs P = some .dir) :
    (mk ["dir", P] st).fs = st.fs ∧
    (popLast? (mk ["dir", P] st).undoStack).map (fun p => p.1) =
      some { op := "mk_dir", path := P, existed := true, backup := none } ∧
    lookupA (undoCmd (mk ["dir", P] st)).fs P = none := by
  obtain ⟨u', hu⟩ := pushCore_shape st.undoStack st.redoStack
    { op := "mk_dir", path := P, existed := true, backup := none }
  have hs1 : mk ["dir", P] st =
      { fs := st.fs,
        undoStack := u' ++ [{ op := "mk_dir", path := P, existed := true, backup := none }],
        redoStack := [], lastExit := 0 } := by
    simp only [mk, List.headI_cons, List.getD_cons_succ, List.getD_cons_zero,
      h, Option.isSome_some, pushAction, Bool.not_true, Bool.false_eq_true,
      ite_false, List.length_cons]
    rw [hu]
    simp [pushCore]
  refine ⟨by rw [hs1], ?_, ?_⟩
  · rw [hs1]
    simp [popLast?_append]
  · rw [hs1, undoCmd]
    rw [popLast?_append]
    simp [h, lookupA_eraseA_self]

/-- A concrete filesystem with a pre-existing directory. -/
def fsStDir : FsSt :=
  { fs := [("d", Entry.dir)], undoStack := [], redoStack := [], lastExit := 0 }

/-- Witness for C9 at concrete inputs. -/
theorem C9_mk_dir_undo_witness :
    (mk ["dir", "d"] fsStDir).fs = fsStDir.fs ∧
    lookupA (undoCmd (mk ["dir", "d"] fsStDir)).fs "d" = none := by
  have h := C9_mk_dir_undo_deletes_preexisting fsStDir "d" (by decide)
  exact ⟨h.1, h.2.2⟩

/-! ## Claim C6: `case` dispatch is first-match-wins

To state the claim for every well-formed `case` block, a structured
block — an ordered list of `when` clauses (value list, body) and an
optional trailing `else` body — is rendered to the line form the scanner
consumes, and the scanner is proved to pick exactly the first matching
clause. -/

/-- Render `when` clauses to block lines. -/
def renderWhens : List (List String × List String) → List String
  | [] => []
  | (vals, body) :: rest =>
      ("when " ++ joinSpace vals) :: (body ++ renderWhens rest)

/-- Render a whole structured `case` block (ordered `when` clauses, then
an optional trailing `else` body). -/
def renderCase (clauses : List (List String × List String))
    (elseBody : Option (List String)) : List String :=
  renderWhens clauses ++
    (match elseBody with
     | none => []
     | some b => "else" :: b)

/-- A well-formed `when` value token: non-empty, no whitespace. -/
def wfToken (s : String) : Prop :=
  s.data ≠ [] ∧ ∀ c ∈ s.data, pyIsSpace c = false

/-- A well-formed `when` clause: at least one value token, all tokens
well-formed, and no body line that the scanner would take for a `when`
header or the `else` marker. -/
def wfClause (cl : List String × List String) : Prop :=
  cl.1 ≠ [] ∧ (∀ s ∈ cl.1, wfToken s) ∧ ∀ l ∈ cl.2, caseBreakLine l = false

instance (s : String) : Decidable (wfToken s) := by
  unfold wfToken; infer_instance

instance (cl : List String × List String) : Decidable (wfClause cl) := by
  unfold wfClause; infer_instance

theorem stripChars_eq_self (l : List Char)
    (h1 : ∀ c, l.head? = some c → pyIsSpace c = false)
    (h2 : ∀ c, l.getLast? = some c → pyIsSpace c = false) :
    stripChars l = l := by
  unfold stripChars
  have hd : l.dropWhile pyIsSpace = l := by
    cases l with
    | nil => rfl
    | cons c cs => rw [List.dropWhile_cons, if_neg (by simp [h1 c rfl])]
  rw [hd]
  have hd2 : l.reverse.dropWhile pyIsSpace = l.reverse := by
    cases hr : l.reverse with
    | nil => rfl
    | cons c cs =>
        have hc : l.getLast? = some c := by
          rw [← List.head?_reverse, hr]
          rfl
        rw [List.dropWhile_cons, if_neg (by simp [h2 c hc])]
  rw [hd2, List.reverse_reverse]

theorem joinSpace_data_ne_nil (vals : List String) (hv : vals ≠ [])
    (hw : ∀ s ∈ vals, wfToken s) : (joinSpace vals).data ≠ [] := by
  cases vals with
  | nil => exact absurd rfl hv
  | cons x xs =>
      cases xs with
      | nil =>
          exact (hw x (by simp)).1
      | cons y ys =>
          show (x ++ " " ++ joinSpace (y :: ys)).data ≠ []
          rw [String.data_append, String.data_append]
          intro hcontra
          have := List.append_eq_nil.mp hcontra
          have := List.append_eq_nil.mp this.1
          exact (hw x (by simp)).1 this.1

theorem joinSpace_last_nonspace (vals : List String) (hv : vals ≠ [])
    (hw : ∀ s ∈ vals, wfToken s) :
    ∀ c, (joinSpace vals).data.getLast? = some c → pyIsSpace c = false := by
  induction vals with
  | nil => exact absurd rfl hv
  | cons x xs ih =>
      cases xs with
      | nil =>
          intro c hc
          have hmem : c ∈ x.data := by
            obtain ⟨h0, heq⟩ :=
              List.mem_getLast?_eq_getLast (Option.mem_def.mpr hc)
            rw [heq]
            exact List.getLast_mem h0
          exact (hw x (by simp)).2 c hmem
      | cons y ys =>
          intro c hc
          have hne : (joinSpace (y :: ys)).data ≠ [] :=
            joinSpace_data_ne_nil (y :: ys) (by simp)
              (fun s hs => hw s (by simp [hs]))
          have hrw : (joinSpace (x :: y :: ys)).data =
              (x ++ " ").data ++ (joinSpace (y :: ys)).data := by
            show (x ++ " " ++ joinSpace (y :: ys)).data = _
            rw [String.data_append]
          rw [hrw, List.getLast?_append_of_ne_nil _ hne] at hc
          exact ih (by simp) (fun s hs => hw s (by simp [hs])) c hc

theorem isPrefixOf_append_self (p r : List Char) :
    p.isPrefixOf (p ++ r) = true := by
  rw [List.isPrefixOf_iff_prefix]
  exact List.prefix_append p r

/-- A rendered `when` header survives `strip()` unchanged. -/
theorem strip_header (vals : List String) (hv : vals ≠ [])
    (hw : ∀ s ∈ vals, wfToken s) :
    pyStrip ("when " ++ joinSpace vals) = "when " ++ joinSpace vals := by
  unfold pyStrip
  rw [stripChars_eq_self]
  · intro c hc
    rw [String.data_append,
      show ("when " : String).data = 'w' :: "hen ".data from rfl,
      List.cons_append, List.head?_cons] at hc
    simp only [Option.some.injEq] at hc
    subst hc
    decide
  · intro c hc
    rw [String.data_append,
      List.getLast?_append_of_ne_nil _
        (joinSpace_data_ne_nil vals hv hw)] at hc
    exact joinSpace_last_nonspace vals hv hw c hc

theorem splitWsCore_token (t : List Char) :
    ∀ (l acc : List Char), (∀ c ∈ t, pyIsSpace c = false) →
    splitWsCore (t ++ l) acc = splitWsCore l (acc ++ t) := by
  induction t with
  | nil => intro l acc _; simp
  | cons c cs ih =>
      intro l acc ht
      rw [List.cons_append, splitWsCore]
      rw [if_neg (by simp [ht c (by simp)])]
      rw [ih l (acc ++ [c]) (fun d hd => ht d (by simp [hd]))]
      rw [List.append_assoc]
      rfl

/-- `str.split()` of a space-join of well-formed tokens recovers the
tokens. -/
theorem pySplitWs_joinSpace (vals : List String)
    (hw : ∀ s ∈ vals, wfToken s) : pySplitWs (joinSpace vals) = vals := by
  induction vals with
  | nil => rfl
  | cons x xs ih =>
      cases xs with
      | nil =>
          show pySplitWs x = [x]
          unfold pySplitWs
          have h := splitWsCore_token x.data [] [] (hw x (by simp)).2
          rw [List.append_nil] at h
          rw [h, splitWsCore]
          rw [if_neg (by simpa using (hw x (by simp)).1)]
          rfl
      | cons y ys =>
          show pySplitWs (x ++ " " ++ joinSpace (y :: ys)) = x :: y :: ys
          unfold pySplitWs
          rw [String.data_append, String.data_append,
            show (" " : String).data = [' '] from rfl, List.append_assoc]
          rw [splitWsCore_token x.data _ [] (hw x (by simp)).2]
          rw [List.singleton_append, splitWsCore]
          rw [if_pos (by decide)]
          rw [if_neg (by simpa using (hw x (by simp)).1)]
          have h := ih (fun s hs => hw s (by simp [hs]))
          unfold pySplitWs at h
          simp only [List.nil_append, List.map_cons]
          rw [show String.mk x.data = x from rfl, h]

theorem collectUntil_append (body rest : List String)
    (hb : ∀ l ∈ body, caseBreakLine l = false)
    (hr : rest = [] ∨ caseBreakLine rest.headI = true) :
    collectUntil (body ++ rest) = (body, rest) := by
  induction body with
  | nil =>
      rcases hr with h | h
      · subst h; rfl
      · cases rest with
        | nil => rfl
        | cons x xs =>
            simp only [List.headI_cons] at h
            simp [collectUntil, List.takeWhile_cons, List.dropWhile_cons, h]
  | cons b bs ih =>
      have hb0 : caseBreakLine b = false := hb b (by simp)
      have h := ih (fun l hl => hb l (by simp [hl]))
      simp only [collectUntil, Prod.mk.injEq] at h
      simp [collectUntil, List.takeWhile_cons, List.dropWhile_cons, hb0,
        h.1, h.2]

/-- The head of a rendered remainder block is a scanner break line
(or the block is empty). -/
theorem renderCase_head_break (clauses : List (List String × List String))
    (elseB : Option (List String)) (hw : ∀ cl ∈ clauses, wfClause cl) :
    renderCase clauses elseB = [] ∨
      caseBreakLine (renderCase clauses elseB).headI = true := by
  cases clauses with
  | nil =>
      cases elseB with
      | none => exact Or.inl rfl
      | some b =>
          refine Or.inr ?_
          rw [show renderCase [] (some b) = "else" :: b from rfl]
          rw [List.headI_cons]
          decide
  | cons cl cls =>
      right
      obtain ⟨vals, body⟩ := cl
      obtain ⟨hv, hvals, _⟩ := hw (vals, body) (by simp)
      show caseBreakLine
        (("when " ++ joinSpace vals) :: (body ++ renderCase cls elseB)).headI
          = true
      simp only [List.headI_cons]
      unfold caseBreakLine
      rw [strip_header vals hv hvals]
      unfold pyStartsWith pyStartsWithL
      rw [String.data_append, isPrefixOf_append_self]
      simp

/-- The `case` scanner on a rendered block returns the first matching
clause's body (and no `else` block), else the `else` body. -/
theorem caseScanF_render (v : String) :
    ∀ (clauses : List (List String × List String))
      (elseB : Option (List String)) (fuel : Nat),
      (renderCase clauses elseB).length + 1 ≤ fuel →
      (∀ cl ∈ clauses, wfClause cl) →
      caseScanF v fuel (renderCase clauses elseB) =
        (match clauses.find? (fun cl => cl.1.contains v) with
         | some cl => (cl.2, [])
         | none => ([], elseB.getD [])) := by
  intro clauses
  induction clauses with
  | nil =>
      intro elseB fuel hfuel _
      cases elseB with
      | none =>
          cases fuel with
          | zero => simp [renderCase, renderWhens] at hfuel
          | succ f => rfl
      | some b =>
          cases fuel with
          | zero => simp [renderCase, renderWhens] at hfuel
          | succ f => rfl
  | cons cl cls ih =>
      intro elseB fuel hfuel hw
      obtain ⟨vals, body⟩ := cl
      obtain ⟨hv, hvals, hbody⟩ := hw (vals, body) (by simp)
      have hrender : renderCase ((vals, body) :: cls) elseB =
          ("when " ++ joinSpace vals) :: (body ++ renderCase cls elseB) := by
        show (("when " ++ joinSpace vals) :: (body ++ renderWhens cls)) ++ _
          = _
        rw [List.cons_append, List.append_assoc]
        rfl
      rw [hrender] at hfuel ⊢
      cases fuel with
      | zero => simp at hfuel
      | succ f =>
          rw [caseScanF]
          rw [strip_header vals hv hvals]
          rw [if_pos (show pyStartsWith ("when " ++ joinSpace vals) "when "
              = true by
            unfold pyStartsWith pyStartsWithL
            rw [String.data_append, isPrefixOf_append_self])]
          have hdrop : pyDrop ("when " ++ joinSpace vals) 5 =
              joinSpace vals := by
            unfold pyDrop
            rw [String.data_append,
              show (5 : Nat) = ("when " : String).data.length from rfl,
              List.drop_left]
          rw [hdrop, pySplitWs_joinSpace vals hvals]
          rw [collectUntil_append body (renderCase cls elseB) hbody
            (renderCase_head_break cls elseB
              (fun c hc => hw c (by simp [hc])))]
          by_cases hcont : vals.contains v
          · rw [if_pos hcont]
            rw [List.find?_cons_of_pos _ (by simpa using hcont)]
          · rw [if_neg (by simpa using hcont)]
            have hfuel' : (renderCase cls elseB).length + 1 ≤ f := by
              simp only [List.length_cons, List.length_append] at hfuel
              omega
            rw [ih elseB f hfuel' (fun c hc => hw c (by simp [hc]))]
            rw [List.find?_cons_of_neg _ (by simpa using hcont)]

/-- **C6.**  `case` dispatch is first-match-wins: on any well-formed
rendered `case` block the chosen body is the first `when` clause (in
order) whose space-separated value list contains the compared value —
even when a later `when` also matches — and the `else` body exactly when
no `when` matches.  The two closed runs additionally check, through the
full interpreter, that the compared value is the stringified variable
(store first, then environment, else empty), that only the first
matching clause's body executes, that a `brk` raised inside the executed
body is caught at the case boundary, and that execution then continues
after `endcase`. -/
theorem C6_case_first_match :
    (∀ (clauses : List (List String × List String))
       (elseB : Option (List String)) (v : String),
       (∀ cl ∈ clauses, wfClause cl) →
       caseChoose (renderCase clauses elseB) v =
         (match clauses.find? (fun cl => cl.1.contains v) with
          | some cl => cl.2
          | none => elseB.getD [])) ∧
    (runLines testReg shNone [] 30
        ["case x", "when A", "mark inA", "brk", "mark postbrk",
         "when A B", "mark second", "else", "mark inelse", "endcase",
         "mark done"]
        { vars := [("x", .vstr "A")], aliases := [] }).map
      (fun p => (p.2, lookupA p.1.vars "inA", lookupA p.1.vars "done")) =
      some (.ok, some (.vint 1), some (.vint 1)) ∧
    (runLines testReg shNone [] 30
        ["case x", "when A", "mark inA", "brk", "mark postbrk",
         "when A B", "mark second", "else", "mark inelse", "endcase",
         "mark done"]
        { vars := [("x", .vstr "A")], aliases := [] }).map
      (fun p => (lookupA p.1.vars "postbrk", lookupA p.1.vars "second",
        lookupA p.1.vars "inelse")) = some (none, none, none) ∧
    (runLines testReg shNone [("x", "B")] 30
        ["case x", "when A", "mark inA", "when B", "mark inB", "endcase"]
        { vars := [], aliases := [] }).map
      (fun p => (p.2, lookupA p.1.vars "inA", lookupA p.1.vars "inB")) =
      some (.ok, none, some (.vint 1)) := by
  refine ⟨?_, by decide, by decide, by decide⟩
  intro clauses elseB v hw
  unfold caseChoose caseScan
  rw [caseScanF_render v clauses elseB _ (le_refl _) hw]
  cases hf : clauses.find? (fun cl => cl.1.contains v) with
  | some cl => simp
  | none =>
      cases elseB with
      | none => simp
      | some b =>
          cases b with
          | nil => simp
          | cons x xs => simp

/-- Witness for C6 at a concrete block: both `when`s match `A`, the
first wins and the `else` body is not chosen. -/
theorem C6_case_first_match_witness :
    caseChoose
      (renderCase [(["A"], ["mark one"]), (["A", "B"], ["mark two"])]
        (some ["mark other"])) "A" = ["mark one"] := by
  have h := C6_case_first_match.1
    [(["A"], ["mark one"]), (["A", "B"], ["mark two"])]
    (some ["mark other"]) "A" (by decide)
  exact h.trans (by decide)

/-! ## Claim C1: per-line error containment and exit propagation -/

/-- **C1 counterexample.**  The claim says any error raised while
executing a single line is caught at that line's boundary and execution
continues at the next line.  For the line `if 1 == 1 then boom` whose
inline command raises an ordinary error, the error is NOT caught at the
line boundary (the `except BreakException: raise` at sigil.py 4931-4932
re-raises breaks and catches nothing else): the error outcome escapes
`run_lines` and the following line `mark after` never executes. -/
theorem C1_counterexample :
    (runLines testReg shNone [] 20 ["if 1 == 1 then boom", "mark after"]
      { vars := [], aliases := [] }).map
      (fun p => (p.2, lookupA p.1.vars "after")) =
      some (.err "boom", none) := by decide

/-- **C1 (amended).**  Errors raised executing a plain command line are
caught at the line boundary, reported (last exit set to 1), and
execution continues at the next line (part 1); the exit signal is never
caught there and terminates the run (part 2); an error raised by the
inline command of a single-line `if` instead propagates out of the
interpreter loop uncaught (part 3 — the amendment).  A function call
(`clf`) runs its stored commands (part 4); an exit from a command
unwinds through the function call (part 5) while an ordinary error only
aborts the remaining body, reporting failure without propagating
(part 6).  An exit raised in a repeat-loop iteration unwinds through the
loop (part 7), and one raised inside a `case` body unwinds through the
case frame and terminates the whole run (part 8, closed run). -/
theorem C1_error_containment :
    (∀ (f : Nat) (reg : Registry) (sh : Shell) (env : Env)
       (cleaned : List String) (labels : List (String × Nat)) (idx : Nat)
       (st st' : St) (raw c m : String) (args : List String),
       cleaned.get? idx = some raw → ¬ pyStrip raw = "" →
       labelName? (pyStrip raw) = none →
       tokenize (pyStrip raw) = c :: args →
       c ≠ "goto" → c ≠ "rpt" → c ≠ "case" → c ≠ "if" → c ≠ "brk" →
       executeLine f reg sh env (pyStrip raw) st = some (st', .err m) →
       runLinesAux reg sh env (f + 1) cleaned labels idx st =
         runLinesAux reg sh env f cleaned labels (idx + 1)
           (setLastExit st' 1)) ∧
    (∀ (f : Nat) (reg : Registry) (sh : Shell) (env : Env)
       (cleaned : List String) (labels : List (String × Nat)) (idx : Nat)
       (st st' : St) (raw c : String) (k : Int) (args : List String),
       cleaned.get? idx = some raw → ¬ pyStrip raw = "" →
       labelName? (pyStrip raw) = none →
       tokenize (pyStrip raw) = c :: args →
       c ≠ "goto" → c ≠ "rpt" → c ≠ "case" → c ≠ "if" → c ≠ "brk" →
       executeLine f reg sh env (pyStrip raw) st = some (st', .exit k) →
       runLinesAux reg sh env (f + 1) cleaned labels idx st =
         some (st', .exit k)) ∧
    (∀ (f : Nat) (reg : Registry) (sh : Shell) (env : Env)
       (cleaned : List String) (labels : List (String × Nat)) (idx : Nat)
       (st st' : St) (raw m : String) (args : List String),
       cleaned.get? idx = some raw → ¬ pyStrip raw = "" →
       labelName? (pyStrip raw) = none →
       tokenize (pyStrip raw) = "if" :: args →
       "then" ∈ args →
       evalIfCond st.vars env (args.take (idxOf args "then")) = true →
       executeLine f reg sh env
         (joinSpace (args.drop (idxOf args "then" + 1)))
         st = some (st', .err m) →
       runLinesAux reg sh env (f + 1) cleaned labels idx st =
         some (st', .err m)) ∧
    (∀ (fuel : Nat) (reg : Registry) (sh : Shell) (env : Env)
       (functions : List (String × List String)) (name : String)
       (args' cmds : List String) (st : St),
       lookupA functions name = some cmds →
       clf fuel reg sh env functions (name :: args') st =
         clfLoop fuel reg sh env cmds st) ∧
    (∀ (fuel : Nat) (reg : Registry) (sh : Shell) (env : Env)
       (cmd e : String) (rest : List String) (st st' : St) (k : Int),
       expandAliasesAndVars st.aliases st.vars env fuel cmd = some e →
       executeLine fuel reg sh env e st = some (st', .exit k) →
       clfLoop fuel reg sh env (cmd :: rest) st = some (st', .exit k)) ∧
    (∀ (fuel : Nat) (reg : Registry) (sh : Shell) (env : Env)
       (cmd e m : String) (rest : List String) (st st' : St),
       expandAliasesAndVars st.aliases st.vars env fuel cmd = some e →
       executeLine fuel reg sh env e st = some (st', .err m) →
       clfLoop fuel reg sh env (cmd :: rest) st =
         some (setLastExit st' 1, .ok)) ∧
    (∀ (run : St → Option (St × Outcome)) (f : Nat) (st st' : St) (k : Int),
       run st = some (st', .exit k) →
       rptLoop run (f + 1) none st = some (st', .exit k) ∧
       ∀ n : Int, 0 < n →
         rptLoop run (f + 1) (some n) st = some (st', .exit k)) ∧
    (runLines testReg shNone [] 20
      ["case x", "when A", "exitc", "endcase", "mark done"]
      { vars := [("x", .vstr "A")], aliases := [] }).map
      (fun p => (p.2, lookupA p.1.vars "done")) = some (.exit 3, none) ∧
    (runLines testReg shNone [] 20 ["rpt 3 exitc", "mark done"]
      { vars := [], aliases := [] }).map
      (fun p => (p.2, lookupA p.1.vars "done")) = some (.exit 3, none) := by
  refine ⟨?_, ?_, ?_, ?_, ?_, ?_, ?_, by decide, by decide⟩
  · intro f reg sh env cleaned labels idx st st' raw c m args
      hline hne hlab htok hc1 hc2 hc3 hc4 hc5 hexec
    rw [runLinesAux, hline]
    simp only [hne, hlab, htok, hexec, hc1, hc2, hc3, hc4, hc5,
      Option.isSome_none, Bool.false_eq_true, ite_false, ne_eq,
      not_false_eq_true]
  · intro f reg sh env cleaned labels idx st st' raw c k args
      hline hne hlab htok hc1 hc2 hc3 hc4 hc5 hexec
    rw [runLinesAux, hline]
    simp only [hne, hlab, htok, hexec, hc1, hc2, hc3, hc4, hc5,
      Option.isSome_none, Bool.false_eq_true, ite_false, ne_eq,
      not_false_eq_true]
  · intro f reg sh env cleaned labels idx st st' raw m args
      hline hne hlab htok hthen hcond hexec
    have hidx : idxOf ("if" :: args) "then" = idxOf args "then" + 1 := by
      simp [idxOf]
    rw [runLinesAux, hline]
    simp [hne, hlab, htok, hidx, hthen, hcond, hexec]
  · intro fuel reg sh env functions name args' cmds st hlook
    rw [clf, hlook]
  · intro fuel reg sh env cmd e rest st st' k hexp hexec
    rw [clfLoop, hexp]
    simp only [hexec]
  · intro fuel reg sh env cmd e m rest st st' hexp hexec
    rw [clfLoop, hexp]
    simp only [hexec]
  · intro run f st st' k hrun
    constructor
    · rw [rptLoop, hrun]
    · intro n hn
      rw [rptLoop]
      simp only [hrun]
      rw [if_neg (by omega)]

/-- Witness for C1 (amended) at concrete inputs: a failing plain
command line is reported and the loop moves to the next line; a failing
function-body command aborts the body and the function returns
normally. -/
theorem C1_error_containment_witness :
    runLinesAux testReg shNone [] 4 ["boom"] [] 0 { vars := [], aliases := [] } =
      runLinesAux testReg shNone [] 3 ["boom"] [] 1
        (setLastExit { vars := [], aliases := [] } 1) ∧
    clfLoop 3 testReg shNone [] ["boom", "mark two"]
        { vars := [], aliases := [] } =
      some (setLastExit { vars := [], aliases := [] } 1, .ok) := by
  constructor
  · exact C1_error_containment.1 3 testReg shNone [] ["boom"] [] 0
      { vars := [], aliases := [] } { vars := [], aliases := [] }
      "boom" "boom" "boom" [] rfl (by decide) rfl (by decide)
      (by decide) (by decide) (by decide) (by decide) (by decide) (by decide)
  · exact C1_error_containment.2.2.2.2.2.1 3 testReg shNone [] "boom" "boom"
      "boom" ["mark two"] { vars := [], aliases := [] }
      { vars := [], aliases := [] } (by decide) (by decide)

end Sigil
